import Mathlib

set_option maxHeartbeats 1000000

set_option maxRecDepth 100000

/-!
Shallow embedding of the demand-planning pipeline of
src/demand_planner_new.py: the reshaper, the series validator, the
forecast orchestrator built around an abstract forecasting oracle, the
aggregator, the risk analyzer and the reconciliation classifier.
Quantities and predictions are rationals; calendar months are linear
month indices (year * 12 + month - 1); calendar dates carry a month
index and a 1-based day of month.
-/

/-- Minimum number of distinct sales periods required to forecast a part
(MIN_DATA_POINTS = 3 in the source, line 9). -/
def MIN_DATA_POINTS : Nat := 3

def ys2024 : String := "2024"

def ys2025 : String := "2025"

def dashChar : Char := '-'

/-- Character-list test that p is an initial segment of s. -/
def leadChars : List Char → List Char → Bool
  | [], _ => true
  | _ :: _, [] => false
  | p :: ps, s :: ss => decide (p = s) && leadChars ps ss

/-- str.startswith of the source, character for character. -/
def startsWithStr (s p : String) : Bool := leadChars p.data s.data

/-- Column filter of the reshaper: a column is treated as a period
column exactly when its label starts with 2024 or 2025 (source line
19). -/
def isDateCol (s : String) : Bool := startsWithStr s ys2024 || startsWithStr s ys2025

/-- Splitting a character list on a separator character. -/
def splitOnChar (sep : Char) : List Char → List (List Char)
  | [] => [[]]
  | c :: rest =>
    let r := splitOnChar sep rest
    if c = sep then [] :: r else (c :: r.headD []) :: r.tail

def isDigitList (l : List Char) : Bool := l.all Char.isDigit

/-- Numeric value of a decimal digit string. -/
def digitsToNat (l : List Char) : Nat := l.foldl (fun acc c => acc * 10 + (c.toNat - 48)) 0

/-- Strict parse of a period label in calendar-month form, as
pd.to_datetime with the year-month format does on the melted Month
column (source line 29): a 4-digit year, a dash, a 1- or 2-digit month
between 1 and 12.  The result is a linear month index. -/
def parseMonth (s : String) : Option Nat :=
  match splitOnChar dashChar s.data with
  | [ys, ms] =>
    if ys.length = 4 ∧ isDigitList ys = true ∧ 1 ≤ ms.length ∧ ms.length ≤ 2 ∧
        isDigitList ms = true then
      if 1 ≤ digitsToNat ms ∧ digitsToNat ms ≤ 12 then
        some (digitsToNat ys * 12 + (digitsToNat ms - 1))
      else none
    else none
  | _ => none

/-- One raw input row: the Part Number cell (none models a missing
value) and the cells under each column label. -/
structure RawRow where
  pn : Option String
  vals : List (String × Option ℚ)
deriving DecidableEq

/-- A wide input table: column labels plus rows. -/
structure WideTable where
  cols : List String
  rows : List RawRow
deriving DecidableEq

/-- The cell of a row under a column label; a label absent from the row
counts as a missing value. -/
def cellValue (r : RawRow) (c : String) : Option ℚ := (r.vals.lookup c).join

/-- A flat sales record produced by the reshaper: part number, linear
month index and quantity. -/
structure SalesRecord where
  pn : String
  month : Nat
  qty : ℚ
deriving DecidableEq

/-- Melting one period column: one (part, label, quantity) triple per
row whose part cell and quantity cell are both present (melt followed
by dropna on Part Number and Sales Qty, source lines 21-27). -/
def meltCol (rows : List RawRow) (c : String) : List (String × String × ℚ) :=
  rows.filterMap fun r =>
    match r.pn, cellValue r c with
    | some p, some q => some (p, c, q)
    | _, _ => none

/-- Parsing the Month entries of the melted rows (source line 29); an
unparseable label raises, modelled as an error naming the label. -/
def parseRecords : List (String × String × ℚ) → Except String (List SalesRecord)
  | [] => Except.ok []
  | x :: xs =>
    match parseMonth x.2.1, parseRecords xs with
    | some m, Except.ok rs => Except.ok (⟨x.1, m, x.2.2⟩ :: rs)
    | some _, Except.error e => Except.error e
    | none, _ => Except.error x.2.1

/-- The reshaper (source lines 19-29): keep the period columns, melt,
drop rows with a missing part or quantity, then parse every period
label; a malformed label aborts reshaping. -/
def reshape (t : WideTable) : Except String (List SalesRecord) :=
  parseRecords ((t.cols.filter isDateCol).map (meltCol t.rows)).flatten

/-- Lexicographic character order on part numbers, the order pandas
groupby sorts its string keys in. -/
def leChars : List Char → List Char → Bool
  | [], _ => true
  | _ :: _, [] => false
  | a :: as, b :: bs => if a = b then leChars as bs else decide (a < b)

def leStr (a b : String) : Bool := leChars a.data b.data

def sortStr (l : List String) : List String :=
  List.insertionSort (fun a b => leStr a b = true) l

def sortNat (l : List Nat) : List Nat := List.insertionSort (fun a b => a ≤ b) l

/-- Distinct sales months present for one part. -/
def distinctMonths (records : List SalesRecord) (pn : String) : List Nat :=
  ((records.filter fun r => decide (r.pn = pn)).map fun r => r.month).dedup

/-- The parts with at least MIN_DATA_POINTS distinct months, in the
sorted order pandas groupby yields them (source lines 35-38). -/
def validPNs (records : List SalesRecord) : List String :=
  (sortStr ((records.map fun r => r.pn).dedup)).filter fun pn =>
    decide (MIN_DATA_POINTS ≤ (distinctMonths records pn).length)

/-- One part's time series: quantities summed per distinct month,
sorted by month (groupby Date followed by sum, source line 50). -/
def groupedSeries (records : List SalesRecord) (pn : String) : List (Nat × ℚ) :=
  (sortNat (((records.filter fun r => decide (r.pn = pn)).map fun r => r.month).dedup)).map fun m =>
    (m, (((records.filter fun r => decide (r.pn = pn)).filter fun r => decide (r.month = m)).map
      fun r => r.qty).sum)

/-- The in-loop validity check (source line 53): too few rows, or fewer
than two distinct summed quantities. -/
def degenerate (g : List (Nat × ℚ)) : Bool :=
  decide (g.length < MIN_DATA_POINTS) || decide ((g.map fun p => p.2).dedup.length < 2)

def isLeap (y : Nat) : Bool := (y % 4 == 0 && y % 100 != 0) || y % 400 == 0

/-- Number of days of the month with linear index mi (its year is
mi / 12, its month-of-year is mi % 12 + 1). -/
def daysInMonth (mi : Nat) : Nat :=
  if mi % 12 = 1 then (if isLeap (mi / 12) then 29 else 28)
  else if mi % 12 = 3 ∨ mi % 12 = 5 ∨ mi % 12 = 8 ∨ mi % 12 = 10 then 30
  else 31

/-- A calendar date: linear month index and 1-based day of month. -/
structure Date where
  mi : Nat
  day : Nat
deriving DecidableEq

def Date.next (d : Date) : Date :=
  if d.day < daysInMonth d.mi then ⟨d.mi, d.day + 1⟩ else ⟨d.mi + 1, 1⟩

def Date.addDays : Date → Nat → Date
  | d, 0 => d
  | d, n + 1 => d.next.addDays n

/-- A real calendar date: the day lies inside its month. -/
def Date.Valid (d : Date) : Prop := 1 ≤ d.day ∧ d.day ≤ daysInMonth d.mi

/-- A forecast row: part, linear month index, predicted quantity. -/
structure ForecastPoint where
  pn : String
  month : Nat
  qty : ℚ
deriving DecidableEq

/-- The forecasting oracle (Prophet in the source): fitting a series
may fail (none models a raised exception); a fitted model predicts a
value for every date of the future dataframe. -/
structure Oracle where
  fit : List (Nat × ℚ) → Option (Date → ℚ)

/-- The dates of make_future_dataframe with 30 * H daily periods
(source line 60): the history month starts plus the 30 * H days after
the last of them. -/
def futureDates (histMonths : List Nat) (H : Nat) : List Date :=
  match histMonths with
  | [] => []
  | m :: ms =>
    ((m :: ms).map fun mi => Date.mk mi 1) ++
      (List.range (30 * H)).map fun i => (Date.mk (ms.foldl Nat.max m) 1).addDays (i + 1)

/-- The consecutive calendar months from the earliest to the latest of
a month-index list: the index a month-start resample produces. -/
def monthSpan : List Nat → List Nat
  | [] => []
  | m :: ms => List.range' (ms.foldl Nat.min m) (ms.foldl Nat.max m + 1 - ms.foldl Nat.min m)

/-- Month-start resampling with mean (source line 66): one row per
calendar month from the earliest to the latest date, holding the mean
prediction over the dates falling in that month.  pandas yields NaN for
a month containing no date; here the empty mean is the rational 0 / 0 =
0, a value no claim depends on. -/
def resampleMS (yhat : Date → ℚ) (dates : List Date) : List (Nat × ℚ) :=
  (monthSpan (dates.map Date.mi)).map fun mo =>
    (mo, ((dates.filter fun d => decide (d.mi = mo)).map yhat).sum /
      ((dates.filter fun d => decide (d.mi = mo)).length : ℚ))

/-- One part's forecast (source lines 57-71): fit, predict over the
future dataframe, resample monthly, keep the last H rows; none models
the exception path of the try block. -/
def forecastEntity (oracle : Oracle) (H : Nat) (pn : String) (series : List (Nat × ℚ)) :
    Option (List ForecastPoint) :=
  (oracle.fit series).map fun yhat =>
    let res := resampleMS yhat (futureDates (series.map fun p => p.1) H)
    (res.drop (res.length - H)).map fun p => ⟨pn, p.1, p.2⟩

/-- The per-part forecast loop (source lines 48-73): the in-loop check
routes a degenerate series to the skipped list before the oracle runs;
a fit failure is caught and routes the part to the skipped list;
otherwise the part's forecast rows are kept.  Part order is
preserved. -/
def forecastLoop (oracle : Oracle) (H : Nat) (records : List SalesRecord) :
    List String → List (String × List ForecastPoint) × List String
  | [] => ([], [])
  | pn :: rest =>
    if degenerate (groupedSeries records pn) then
      ((forecastLoop oracle H records rest).1, pn :: (forecastLoop oracle H records rest).2)
    else
      match forecastEntity oracle H pn (groupedSeries records pn) with
      | some pts =>
        ((pn, pts) :: (forecastLoop oracle H records rest).1,
          (forecastLoop oracle H records rest).2)
      | none =>
        ((forecastLoop oracle H records rest).1, pn :: (forecastLoop oracle H records rest).2)

/-- The pipeline from the reshaper to the forecast loop: a reshaping
error aborts before any per-part forecasting work. -/
def runPipeline (oracle : Oracle) (H : Nat) (t : WideTable) :
    Except String (List (String × List ForecastPoint) × List String) :=
  (reshape t).map fun records => forecastLoop oracle H records (validPNs records)

/-- groupby Month followed by sum (source line 93): one row per
distinct forecast month, in sorted order, holding the summed forecast
quantity. -/
def aggMonthly (forecasts : List ForecastPoint) : List (Nat × ℚ) :=
  (sortNat ((forecasts.map fun p => p.month).dedup)).map fun m =>
    (m, ((forecasts.filter fun p => decide (p.month = m)).map fun p => p.qty).sum)

/-- The aggregate read at one month: the summed entries carrying that
month, an absent month contributing nothing. -/
def aggAt (agg : List (Nat × ℚ)) (m : Nat) : ℚ :=
  ((agg.filter fun p => decide (p.1 = m)).map fun p => p.2).sum

/-- An inventory snapshot record: On Hand and In Transit quantities. -/
structure InvRec where
  onHand : ℚ
  inTransit : ℚ
deriving DecidableEq

/-- Combining step modelling the last row of a stable sort by month:
the later element wins, also on ties. -/
def laterPoint (acc : Option ForecastPoint) (p : ForecastPoint) : Option ForecastPoint :=
  match acc with
  | none => some p
  | some b => if b.month ≤ p.month then some p else some b

/-- The row with the latest month among one part's forecast rows, ties
resolved to the last occurrence (sort_values on Month then the last
row, source lines 115-118). -/
def latestPoint (forecasts : List ForecastPoint) (pn : String) : Option ForecastPoint :=
  (forecasts.filter fun p => decide (p.pn = pn)).foldl laterPoint none

/-- One latest-forecast row per part, parts in the sorted order the
groupby yields them. -/
def latestForecast (forecasts : List ForecastPoint) : List ForecastPoint :=
  (sortStr ((forecasts.map fun p => p.pn).dedup)).filterMap (latestPoint forecasts)

/-- A risk row (source lines 120-130). -/
structure RiskRow where
  pn : String
  forecastQty : ℚ
  onHand : ℚ
  inTransit : ℚ
  backorder : ℚ
  risk : ℚ
  flag : Bool
deriving DecidableEq

/-- The risk analyzer (source lines 115-130): left-join the latest
forecast per part with the inventory and backorder snapshots, fill the
missing sides with 0, and compute Overstock Risk and Overstock Flag. -/
def riskRows (forecasts : List ForecastPoint) (inv : String → Option InvRec)
    (bo : String → Option ℚ) : List RiskRow :=
  (latestForecast forecasts).map fun p =>
    { pn := p.pn
      forecastQty := p.qty
      onHand := ((inv p.pn).getD ⟨0, 0⟩).onHand
      inTransit := ((inv p.pn).getD ⟨0, 0⟩).inTransit
      backorder := (bo p.pn).getD 0
      risk := ((inv p.pn).getD ⟨0, 0⟩).onHand + ((inv p.pn).getD ⟨0, 0⟩).inTransit -
        ((bo p.pn).getD 0 + p.qty)
      flag := decide (0 < ((inv p.pn).getD ⟨0, 0⟩).onHand +
        ((inv p.pn).getD ⟨0, 0⟩).inTransit - ((bo p.pn).getD 0 + p.qty)) }

/-- The four-way reconciliation status; the source emits one literal
label per branch. -/
inductive OverstockStatus where
  | ConfirmedBoth
  | NewFromModel
  | PreviouslyFlaggedOnly
  | Clear
deriving DecidableEq

/-- classify (source lines 146-154), branch for branch. -/
def classify (overstockFlag osFlag : Bool) : OverstockStatus :=
  if overstockFlag && osFlag then .ConfirmedBoth
  else if overstockFlag then .NewFromModel
  else if osFlag then .PreviouslyFlaggedOnly
  else .Clear

/-- OS Flag assignment plus the classifier applied row-wise (source
lines 144-156). -/
def reconcile (rows : List RiskRow) (osSet : List String) :
    List (RiskRow × Bool × OverstockStatus) :=
  rows.map fun r => (r, osSet.contains r.pn, classify r.flag (osSet.contains r.pn))

/-!
Concrete inputs used by witnesses and counterexamples.
-/

/-- An oracle that always fits and predicts 0 everywhere. -/
def oracleZero : Oracle := ⟨fun _ => some fun _ => 0⟩

def pnA : String := "A"

def pnB : String := "B"

def c2024Jan : String := "2024-01"

def col2026 : String := "2026-01"

def colBad : String := "2024-13"

/-- Three strictly increasing history months with non-constant
quantities: a valid series. -/
def series0 : List (Nat × ℚ) := [(1, 5), (2, 7), (3, 6)]

/-- Inventory snapshot holding part A with On Hand 100, In Transit 20. -/
def invA : String → Option InvRec := fun pn => if pn = pnA then some ⟨100, 20⟩ else none

/-- Backorder snapshot holding part A with Backorder 10. -/
def boA : String → Option ℚ := fun pn => if pn = pnA then some 10 else none

/-- The risk row the analyzer emits for part A at forecast 50 against
invA and boA. -/
def rowA50 : RiskRow := ⟨pnA, 50, 100, 20, 10, 60, true⟩

/-- The risk row the analyzer emits for part A at forecast 150 against
invA and boA. -/
def rowA150 : RiskRow := ⟨pnA, 150, 100, 20, 10, -40, false⟩

/-- A wide table with one part, one 2024 period column and one
well-formed 2026 period column. -/
def tblYears : WideTable :=
  ⟨[c2024Jan, col2026], [⟨some pnA, [(c2024Jan, some 5), (col2026, some 9)]⟩]⟩

def pnC : String := "C"

/-- Two forecast rows for part A: months 1 and 5. -/
def fcW : List ForecastPoint := [⟨pnA, 1, 10⟩, ⟨pnA, 5, 30⟩]

/-- Forecast collections used to exercise the aggregator. -/
def fpPQ : List ForecastPoint := [⟨pnA, 1, 2⟩, ⟨pnB, 1, 3⟩]

def fpQP : List ForecastPoint := [⟨pnB, 1, 3⟩, ⟨pnA, 1, 2⟩]

def fpR : List ForecastPoint := [⟨pnC, 1, 4⟩]

/-- A table whose single period-pattern column carries the malformed
month label 2024-13 over a populated row. -/
def tBad : WideTable := ⟨[colBad], [⟨some pnA, [(colBad, some 1)]⟩]⟩

/-- Part A alone, with only two distinct months. -/
def recsShort : List SalesRecord := [⟨pnA, 1, 5⟩, ⟨pnA, 2, 7⟩]

/-- Part B alone, with three distinct months but constant quantity. -/
def recsConst : List SalesRecord := [⟨pnB, 1, 5⟩, ⟨pnB, 2, 5⟩, ⟨pnB, 3, 5⟩]

/-- Parts A and B, each with three distinct months and non-constant
quantities. -/
def recsW : List SalesRecord :=
  [⟨pnA, 1, 5⟩, ⟨pnA, 2, 7⟩, ⟨pnA, 3, 6⟩, ⟨pnB, 1, 1⟩, ⟨pnB, 2, 2⟩, ⟨pnB, 3, 3⟩]

/-- The grouped series of part B inside recsW. -/
def seriesBW : List (Nat × ℚ) := [(1, 1), (2, 2), (3, 3)]

/-- An oracle that raises exactly on part B's series. -/
def oracleFailB : Oracle := ⟨fun s => if s = seriesBW then none else some fun _ => 0⟩

/-!
Helper lemmas about the forecast loop and the validator.
-/

theorem forecastLoop_cons_degen (oracle : Oracle) (H : Nat) (records : List SalesRecord)
    (pn : String) (rest : List String) (h : degenerate (groupedSeries records pn) = true) :
    forecastLoop oracle H records (pn :: rest) =
      ((forecastLoop oracle H records rest).1,
        pn :: (forecastLoop oracle H records rest).2) := by
  simp [forecastLoop, h]

theorem forecastLoop_cons_fail (oracle : Oracle) (H : Nat) (records : List SalesRecord)
    (pn : String) (rest : List String) (h : degenerate (groupedSeries records pn) = false)
    (hf : forecastEntity oracle H pn (groupedSeries records pn) = none) :
    forecastLoop oracle H records (pn :: rest) =
      ((forecastLoop oracle H records rest).1,
        pn :: (forecastLoop oracle H records rest).2) := by
  simp [forecastLoop, h, hf]

theorem forecastLoop_cons_ok (oracle : Oracle) (H : Nat) (records : List SalesRecord)
    (pn : String) (rest : List String) (pts : List ForecastPoint)
    (h : degenerate (groupedSeries records pn) = false)
    (hf : forecastEntity oracle H pn (groupedSeries records pn) = some pts) :
    forecastLoop oracle H records (pn :: rest) =
      ((pn, pts) :: (forecastLoop oracle H records rest).1,
        (forecastLoop oracle H records rest).2) := by
  simp [forecastLoop, h, hf]

theorem forecastEntity_eq_none (oracle : Oracle) (H : Nat) (pn : String)
    (series : List (Nat × ℚ)) (h : (oracle.fit series).isSome = false) :
    forecastEntity oracle H pn series = none := by
  unfold forecastEntity
  cases hf : oracle.fit series with
  | none => rfl
  | some yhat => rw [hf] at h; simp at h

theorem forecastEntity_exists_of_isSome (oracle : Oracle) (H : Nat) (pn : String)
    (series : List (Nat × ℚ)) (h : (oracle.fit series).isSome = true) :
    ∃ pts, forecastEntity oracle H pn series = some pts := by
  unfold forecastEntity
  cases hf : oracle.fit series with
  | none => rw [hf] at h; simp at h
  | some yhat => exact ⟨_, rfl⟩

/-- Every successful loop output belongs to the input part list and had
a successful oracle fit. -/
theorem forecastLoop_fst_mem (oracle : Oracle) (H : Nat) (records : List SalesRecord) :
    ∀ (pns : List String) (q : String × List ForecastPoint),
      q ∈ (forecastLoop oracle H records pns).1 →
        q.1 ∈ pns ∧ (oracle.fit (groupedSeries records q.1)).isSome = true := by
  intro pns
  induction pns with
  | nil => intro q hq; simp [forecastLoop] at hq
  | cons pn rest ih =>
    intro q hq
    by_cases hdeg : degenerate (groupedSeries records pn) = true
    · rw [forecastLoop_cons_degen oracle H records pn rest hdeg] at hq
      obtain ⟨h1, h2⟩ := ih q hq
      exact ⟨List.mem_cons_of_mem pn h1, h2⟩
    · rw [Bool.not_eq_true] at hdeg
      cases hfe : forecastEntity oracle H pn (groupedSeries records pn) with
      | none =>
        rw [forecastLoop_cons_fail oracle H records pn rest hdeg hfe] at hq
        obtain ⟨h1, h2⟩ := ih q hq
        exact ⟨List.mem_cons_of_mem pn h1, h2⟩
      | some pts =>
        rw [forecastLoop_cons_ok oracle H records pn rest pts hdeg hfe] at hq
        rcases List.mem_cons.mp hq with h | h
        · subst h
          refine ⟨List.mem_cons_self pn rest, ?_⟩
          unfold forecastEntity at hfe
          cases hf : oracle.fit (groupedSeries records pn) with
          | none => rw [hf] at hfe; simp at hfe
          | some m => simp [hf]
        · obtain ⟨h1, h2⟩ := ih q h
          exact ⟨List.mem_cons_of_mem pn h1, h2⟩

/-- Every skipped part belongs to the input part list. -/
theorem forecastLoop_snd_mem (oracle : Oracle) (H : Nat) (records : List SalesRecord) :
    ∀ (pns : List String) (pn : String),
      pn ∈ (forecastLoop oracle H records pns).2 → pn ∈ pns := by
  intro pns
  induction pns with
  | nil => intro pn hpn; simp [forecastLoop] at hpn
  | cons q rest ih =>
    intro pn hpn
    by_cases hdeg : degenerate (groupedSeries records q) = true
    · rw [forecastLoop_cons_degen oracle H records q rest hdeg] at hpn
      rcases List.mem_cons.mp hpn with h | h
      · exact h ▸ List.mem_cons_self q rest
      · exact List.mem_cons_of_mem q (ih pn h)
    · rw [Bool.not_eq_true] at hdeg
      cases hfe : forecastEntity oracle H q (groupedSeries records q) with
      | none =>
        rw [forecastLoop_cons_fail oracle H records q rest hdeg hfe] at hpn
        rcases List.mem_cons.mp hpn with h | h
        · exact h ▸ List.mem_cons_self q rest
        · exact List.mem_cons_of_mem q (ih pn h)
      | some pts =>
        rw [forecastLoop_cons_ok oracle H records q rest pts hdeg hfe] at hpn
        exact List.mem_cons_of_mem q (ih pn hpn)

/-- A part of the input list whose grouped series is degenerate lands
in the skip list and never among the forecasts. -/
theorem forecastLoop_degen_mem (oracle : Oracle) (H : Nat) (records : List SalesRecord) :
    ∀ (pns : List String) (pn : String), pns.Nodup → pn ∈ pns →
      degenerate (groupedSeries records pn) = true →
      pn ∈ (forecastLoop oracle H records pns).2 ∧
      pn ∉ (forecastLoop oracle H records pns).1.map (fun q => q.1) := by
  intro pns
  induction pns with
  | nil => intro pn _ hpn; cases hpn
  | cons q rest ih =>
    intro pn hnd hpn hdeg
    rcases List.mem_cons.mp hpn with heq | hmem
    · subst heq
      rw [forecastLoop_cons_degen oracle H records pn rest hdeg]
      refine ⟨List.mem_cons_self pn _, ?_⟩
      intro hm
      obtain ⟨x, hx, hx1⟩ := List.mem_map.mp hm
      have := (forecastLoop_fst_mem oracle H records rest x hx).1
      exact (List.nodup_cons.mp hnd).1 (hx1 ▸ this)
    · have hqpn : q ≠ pn := by
        intro h
        exact (List.nodup_cons.mp hnd).1 (h ▸ hmem)
      obtain ⟨ih1, ih2⟩ := ih pn (List.nodup_cons.mp hnd).2 hmem hdeg
      by_cases hdq : degenerate (groupedSeries records q) = true
      · rw [forecastLoop_cons_degen oracle H records q rest hdq]
        exact ⟨List.mem_cons_of_mem q ih1, ih2⟩
      · rw [Bool.not_eq_true] at hdq
        cases hfe : forecastEntity oracle H q (groupedSeries records q) with
        | none =>
          rw [forecastLoop_cons_fail oracle H records q rest hdq hfe]
          exact ⟨List.mem_cons_of_mem q ih1, ih2⟩
        | some pts =>
          rw [forecastLoop_cons_ok oracle H records q rest pts hdq hfe]
          refine ⟨ih1, ?_⟩
          intro hm
          rw [List.map_cons] at hm
          rcases List.mem_cons.mp hm with h | h
          · exact hqpn h.symm
          · exact ih2 h

theorem validPNs_nodup (records : List SalesRecord) : (validPNs records).Nodup := by
  unfold validPNs sortStr
  exact ((List.perm_insertionSort (fun a b => leStr a b = true) _).nodup_iff.mpr
    (List.nodup_dedup _)).filter _

theorem mem_validPNs (records : List SalesRecord) (pn : String) :
    pn ∈ validPNs records ↔
      pn ∈ records.map (fun r => r.pn) ∧
        MIN_DATA_POINTS ≤ (distinctMonths records pn).length := by
  unfold validPNs sortStr
  rw [List.mem_filter]
  constructor
  · rintro ⟨h1, h2⟩
    refine ⟨?_, by simpa using h2⟩
    have := (List.perm_insertionSort (fun a b => leStr a b = true) _).mem_iff.mp h1
    simpa [List.mem_dedup] using this
  · rintro ⟨h1, h2⟩
    refine ⟨?_, by simpa using h2⟩
    apply (List.perm_insertionSort (fun a b => leStr a b = true) _).mem_iff.mpr
    simpa [List.mem_dedup] using h1

/-!
Claim theorems.
-/

/-- C2: the reconciliation classifier is a total function on the pair
(model flag, external flag); both set yields ConfirmedBoth, only the
model flag NewFromModel, only the external flag PreviouslyFlaggedOnly,
neither Clear; every flag pair receives exactly one status, and every
row emitted by the risk analyzer receives exactly the status of its
flag pair. -/
theorem classify_total_exhaustive :
    classify true true = OverstockStatus.ConfirmedBoth ∧
    classify true false = OverstockStatus.NewFromModel ∧
    classify false true = OverstockStatus.PreviouslyFlaggedOnly ∧
    classify false false = OverstockStatus.Clear ∧
    (∀ m e : Bool, ∃! s : OverstockStatus, classify m e = s) ∧
    (∀ rows osSet, (reconcile rows osSet).length = rows.length ∧
      (reconcile rows osSet).map (fun x => x.2.2) =
        rows.map fun r => classify r.flag (osSet.contains r.pn)) := by
  refine ⟨rfl, rfl, rfl, rfl, fun m e => ⟨classify m e, rfl, fun s hs => hs.symm⟩, ?_⟩
  intro rows osSet
  exact ⟨by simp [reconcile], by simp [reconcile]⟩

/-- C3: every risk-analyzer row satisfies overstock_risk = (on_hand +
in_transit) - (backorder + forecast_quantity) and overstock_flag =
(overstock_risk > 0); with on_hand 100, in_transit 20, backorder 10 the
analyzer yields risk 60 with the flag set at forecast 50, and risk -40
with the flag clear at forecast 150. -/
theorem risk_formula :
    (∀ (forecasts : List ForecastPoint) (inv : String → Option InvRec)
      (bo : String → Option ℚ) (r : RiskRow), r ∈ riskRows forecasts inv bo →
        r.risk = r.onHand + r.inTransit - (r.backorder + r.forecastQty) ∧
        r.flag = decide (0 < r.risk)) ∧
    riskRows [⟨pnA, 0, 50⟩] invA boA = [rowA50] ∧
    riskRows [⟨pnA, 0, 150⟩] invA boA = [rowA150] := by
  refine ⟨?_,
    by norm_num [riskRows, latestForecast, latestPoint, laterPoint, sortStr, leStr, leChars,
      List.filterMap_cons, List.filter, List.foldl,
      invA, boA, rowA50, pnA],
    by norm_num [riskRows, latestForecast, latestPoint, laterPoint, sortStr, leStr, leChars,
      List.filterMap_cons, List.filter, List.foldl,
      invA, boA, rowA150, pnA]⟩
  intro forecasts inv bo r hr
  simp only [riskRows, List.mem_map] at hr
  obtain ⟨p, _, rfl⟩ := hr
  exact ⟨rfl, rfl⟩

/-- Witness for C3: the general formula applied to the concrete row the
analyzer emits for part A at forecast 50. -/
theorem risk_formula_witness :
    rowA50 ∈ riskRows [⟨pnA, 0, 50⟩] invA boA ∧
    (rowA50.risk = rowA50.onHand + rowA50.inTransit -
      (rowA50.backorder + rowA50.forecastQty) ∧
      rowA50.flag = decide (0 < rowA50.risk)) :=
  ⟨by norm_num [riskRows, latestForecast, latestPoint, laterPoint, sortStr, leStr, leChars,
      List.filterMap_cons, List.filter, List.foldl,
      invA, boA, rowA50, pnA],
    risk_formula.1 [⟨pnA, 0, 50⟩] invA boA rowA50
      (by norm_num [riskRows, latestForecast, latestPoint, laterPoint, sortStr, leStr, leChars,
      List.filterMap_cons, List.filter, List.foldl,
        invA, boA, rowA50, pnA])⟩

/-- C6: join-miss zero-fill.  For every analyzer row, a part absent
from the inventory snapshot gets on_hand = in_transit = 0, a part
absent from the backorder snapshot gets backorder_quantity = 0 (either
absence alone is zero-filled rather than erroring), and a part absent
from both has risk = -forecast_quantity with a clear flag whenever the
forecast is positive. -/
theorem join_miss_zero_fill (forecasts : List ForecastPoint)
    (inv : String → Option InvRec) (bo : String → Option ℚ) (r : RiskRow)
    (hr : r ∈ riskRows forecasts inv bo) :
    (inv r.pn = none → r.onHand = 0 ∧ r.inTransit = 0) ∧
    (bo r.pn = none → r.backorder = 0) ∧
    (inv r.pn = none → bo r.pn = none →
      r.risk = -r.forecastQty ∧ (0 < r.forecastQty → r.flag = false)) := by
  simp only [riskRows, List.mem_map] at hr
  obtain ⟨p, _, rfl⟩ := hr
  refine ⟨?_, ?_, ?_⟩
  · intro hinv
    exact ⟨by simp [hinv], by simp [hinv]⟩
  · intro hbo
    exact by simp [hbo]
  · intro hinv hbo
    refine ⟨by simp [hinv, hbo], ?_⟩
    intro hq
    simp only [hinv, hbo, Option.getD_none]
    have h1 : (0 : ℚ) + 0 - (0 + p.qty) = -p.qty := by ring
    rw [h1]
    simp only [decide_eq_false_iff_not, not_lt]
    linarith

/-- Witness for C6: part A forecast at 50 against an inventory-only
miss, a backorder-only miss, and both snapshots missing. -/
theorem join_miss_zero_fill_witness :
    ((⟨pnA, 50, 0, 0, 10, -60, false⟩ : RiskRow) ∈
        riskRows [⟨pnA, 0, 50⟩] (fun _ => none) boA ∧
      ((⟨pnA, 50, 0, 0, 10, -60, false⟩ : RiskRow).onHand = 0 ∧
        (⟨pnA, 50, 0, 0, 10, -60, false⟩ : RiskRow).inTransit = 0)) ∧
    ((⟨pnA, 50, 100, 20, 0, 70, true⟩ : RiskRow) ∈
        riskRows [⟨pnA, 0, 50⟩] invA (fun _ => none) ∧
      (⟨pnA, 50, 100, 20, 0, 70, true⟩ : RiskRow).backorder = 0) ∧
    ((⟨pnA, 50, 0, 0, 0, -50, false⟩ : RiskRow) ∈
        riskRows [⟨pnA, 0, 50⟩] (fun _ => none) (fun _ => none) ∧
      ((⟨pnA, 50, 0, 0, 0, -50, false⟩ : RiskRow).risk =
          -(⟨pnA, 50, 0, 0, 0, -50, false⟩ : RiskRow).forecastQty ∧
        (0 < (⟨pnA, 50, 0, 0, 0, -50, false⟩ : RiskRow).forecastQty →
          (⟨pnA, 50, 0, 0, 0, -50, false⟩ : RiskRow).flag = false))) := by
  have h1 : (⟨pnA, 50, 0, 0, 10, -60, false⟩ : RiskRow) ∈
      riskRows [⟨pnA, 0, 50⟩] (fun _ => none) boA := by
    norm_num [riskRows, latestForecast, latestPoint, laterPoint, sortStr, leStr, leChars,
      List.filterMap_cons, List.filter, List.foldl, boA, pnA]
  have h2 : (⟨pnA, 50, 100, 20, 0, 70, true⟩ : RiskRow) ∈
      riskRows [⟨pnA, 0, 50⟩] invA (fun _ => none) := by
    norm_num [riskRows, latestForecast, latestPoint, laterPoint, sortStr, leStr, leChars,
      List.filterMap_cons, List.filter, List.foldl, invA, pnA]
  have h3 : (⟨pnA, 50, 0, 0, 0, -50, false⟩ : RiskRow) ∈
      riskRows [⟨pnA, 0, 50⟩] (fun _ => none) (fun _ => none) := by
    norm_num [riskRows, latestForecast, latestPoint, laterPoint, sortStr, leStr, leChars,
      List.filterMap_cons, List.filter, List.foldl, pnA]
  exact ⟨⟨h1, (join_miss_zero_fill [⟨pnA, 0, 50⟩] (fun _ => none) boA
        ⟨pnA, 50, 0, 0, 10, -60, false⟩ h1).1 rfl⟩,
    ⟨h2, (join_miss_zero_fill [⟨pnA, 0, 50⟩] invA (fun _ => none)
        ⟨pnA, 50, 100, 20, 0, 70, true⟩ h2).2.1 rfl⟩,
    ⟨h3, (join_miss_zero_fill [⟨pnA, 0, 50⟩] (fun _ => none) (fun _ => none)
        ⟨pnA, 50, 0, 0, 0, -50, false⟩ h3).2.2 rfl rfl⟩⟩

/-- C10: the reshaper takes a column as a period column exactly when
its label starts with the literal strings 2024 or 2025; the well-formed
label 2026-01 parses as a month yet is excluded, so its sales history
is dropped from the reshaped data before validation and forecasting. -/
theorem date_cols_year_filter :
    (∀ s, isDateCol s = (startsWithStr s ys2024 || startsWithStr s ys2025)) ∧
    (parseMonth col2026).isSome = true ∧
    isDateCol col2026 = false ∧
    reshape tblYears = Except.ok [⟨pnA, 24288, 5⟩] :=
  ⟨fun _ => rfl, by decide, by decide, by rfl⟩

/-- C5 (corrected): a part with fewer than MIN_DATA_POINTS distinct
months never reaches the orchestrator — it is excluded from the valid
list, so it is neither forecast nor (contrary to the claim as stated)
recorded in the skip list; a part that passes the distinct-month filter
but whose grouped series is degenerate (fewer than two distinct
quantities) is recorded in the skip list as a bare part id, with no
reason field, and never reaches the orchestrator.  Both hold for every
oracle. -/
theorem validator_skip_policy (records : List SalesRecord) (pn : String)
    (oracle : Oracle) (H : Nat) :
    ((distinctMonths records pn).length < MIN_DATA_POINTS →
      pn ∉ validPNs records ∧
      pn ∉ (forecastLoop oracle H records (validPNs records)).1.map (fun q => q.1) ∧
      pn ∉ (forecastLoop oracle H records (validPNs records)).2) ∧
    (pn ∈ validPNs records →
      degenerate (groupedSeries records pn) = true →
      pn ∈ (forecastLoop oracle H records (validPNs records)).2 ∧
      pn ∉ (forecastLoop oracle H records (validPNs records)).1.map (fun q => q.1)) := by
  constructor
  · intro hlt
    have hnv : pn ∉ validPNs records := by
      intro hm
      have := ((mem_validPNs records pn).mp hm).2
      omega
    refine ⟨hnv, ?_, ?_⟩
    · intro hm
      obtain ⟨q, hq, hq1⟩ := List.mem_map.mp hm
      exact hnv (hq1 ▸ (forecastLoop_fst_mem oracle H records _ q hq).1)
    · intro hm
      exact hnv (forecastLoop_snd_mem oracle H records _ pn hm)
  · intro hv hdeg
    exact forecastLoop_degen_mem oracle H records _ pn (validPNs_nodup records) hv hdeg

/-- Counterexample to C5 as stated: part A of recsShort has two
distinct months, fewer than the required MIN_DATA_POINTS = 3, yet the
run's skip list is empty — such an entity is dropped without being
recorded in the output skip list. -/
theorem validator_skip_cex :
    (distinctMonths recsShort pnA).length < MIN_DATA_POINTS ∧
    validPNs recsShort = [] ∧
    (forecastLoop oracleZero 6 recsShort (validPNs recsShort)).2 = [] := by
  have h : validPNs recsShort = [] := by decide
  exact ⟨by decide, h, by rw [h]; rfl⟩

/-- Witness for C5: both branches applied — part A with two distinct
months, and constant-quantity part B which lands in the skip list. -/
theorem validator_skip_policy_witness :
    ((distinctMonths recsShort pnA).length < MIN_DATA_POINTS ∧
      (pnA ∉ validPNs recsShort ∧
        pnA ∉ (forecastLoop oracleZero 6 recsShort (validPNs recsShort)).1.map (fun q => q.1) ∧
        pnA ∉ (forecastLoop oracleZero 6 recsShort (validPNs recsShort)).2)) ∧
    ((pnB ∈ validPNs recsConst ∧ degenerate (groupedSeries recsConst pnB) = true) ∧
      (pnB ∈ (forecastLoop oracleZero 6 recsConst (validPNs recsConst)).2 ∧
        pnB ∉ (forecastLoop oracleZero 6 recsConst (validPNs recsConst)).1.map
          (fun q => q.1))) := by
  have hdeg : degenerate (groupedSeries recsConst pnB) = true := by
    norm_num [degenerate, groupedSeries, recsConst, pnB, MIN_DATA_POINTS, sortNat,
      List.insertionSort, List.orderedInsert, List.filter_cons, List.filter_nil,
      List.sum_cons, List.sum_nil, List.dedup_cons_of_mem, List.dedup_cons_of_not_mem]
  exact ⟨⟨by decide, (validator_skip_policy recsShort pnA oracleZero 6).1 (by decide)⟩,
    ⟨⟨by decide, hdeg⟩, (validator_skip_policy recsConst pnB oracleZero 6).2 (by decide) hdeg⟩⟩

theorem filter_ne_filter_eq (records : List SalesRecord) (pn pn0 : String) (h : pn ≠ pn0) :
    (records.filter fun r => !decide (r.pn = pn0)).filter (fun r => decide (r.pn = pn)) =
      records.filter fun r => decide (r.pn = pn) := by
  induction records with
  | nil => rfl
  | cons r rest ih =>
    by_cases hr : r.pn = pn
    · have hr0 : ¬(r.pn = pn0) := by rw [hr]; exact h
      simp [List.filter_cons, hr, hr0, h, Ne.symm h, ih]
    · by_cases hr0 : r.pn = pn0
      · simp [List.filter_cons, hr, hr0, h, Ne.symm h, ih]
      · simp [List.filter_cons, hr, hr0, h, Ne.symm h, ih]

/-- Removing one part's records does not change any other part's
grouped series. -/
theorem groupedSeries_filter_ne (records : List SalesRecord) (pn pn0 : String)
    (h : pn ≠ pn0) :
    groupedSeries (records.filter fun r => !decide (r.pn = pn0)) pn =
      groupedSeries records pn := by
  unfold groupedSeries
  rw [filter_ne_filter_eq records pn pn0 h]

/-- Removing one part's records does not change the loop's behaviour on
a part list avoiding that part. -/
theorem forecastLoop_records_filter (oracle : Oracle) (H : Nat)
    (records : List SalesRecord) (pn0 : String) :
    ∀ pns : List String, (∀ pn ∈ pns, pn ≠ pn0) →
      forecastLoop oracle H (records.filter fun r => !decide (r.pn = pn0)) pns =
        forecastLoop oracle H records pns := by
  intro pns
  induction pns with
  | nil => intro _; rfl
  | cons pn rest ih =>
    intro hne
    have hpn := hne pn (List.mem_cons_self pn rest)
    have hgs := groupedSeries_filter_ne records pn pn0 hpn
    have ihr := ih (fun q hq => hne q (List.mem_cons_of_mem pn hq))
    simp only [forecastLoop, hgs, ihr]

/-- On an all-valid, all-fitting part list the loop skips nothing and
forecasts every part. -/
theorem forecastLoop_all_ok (oracle : Oracle) (H : Nat) (records : List SalesRecord) :
    ∀ pns : List String,
      (∀ pn ∈ pns, degenerate (groupedSeries records pn) = false) →
      (∀ pn ∈ pns, (oracle.fit (groupedSeries records pn)).isSome = true) →
      (forecastLoop oracle H records pns).2 = [] ∧
      (forecastLoop oracle H records pns).1.length = pns.length := by
  intro pns
  induction pns with
  | nil => intro _ _; exact ⟨rfl, rfl⟩
  | cons pn rest ih =>
    intro hdeg hfit
    obtain ⟨pts, hfe⟩ := forecastEntity_exists_of_isSome oracle H pn _
      (hfit pn (List.mem_cons_self pn rest))
    rw [forecastLoop_cons_ok oracle H records pn rest pts
      (hdeg pn (List.mem_cons_self pn rest)) hfe]
    obtain ⟨ih1, ih2⟩ := ih (fun q hq => hdeg q (List.mem_cons_of_mem pn hq))
      (fun q hq => hfit q (List.mem_cons_of_mem pn hq))
    exact ⟨ih1, by simp [ih2]⟩

/-- C1: per-entity failure isolation.  On a batch of distinct valid
parts where the oracle fit fails for exactly one part, the loop yields
exactly N - 1 forecast sets and exactly the one-element skip list; the
failing part has no forecast set; and both the run without the failing
part in the batch and the run with its sales records removed as well
produce exactly the same forecast sets, with nothing skipped — the
batch is never aborted. -/
theorem forecast_isolation (oracle : Oracle) (H : Nat) (records : List SalesRecord)
    (pns : List String) (pn0 : String) (hnd : pns.Nodup) (hmem : pn0 ∈ pns)
    (hvalid : ∀ pn ∈ pns, degenerate (groupedSeries records pn) = false)
    (hfail : (oracle.fit (groupedSeries records pn0)).isSome = false)
    (hok : ∀ pn ∈ pns, pn ≠ pn0 → (oracle.fit (groupedSeries records pn)).isSome = true) :
    (forecastLoop oracle H records pns).1.length = pns.length - 1 ∧
    (forecastLoop oracle H records pns).2 = [pn0] ∧
    pn0 ∉ (forecastLoop oracle H records pns).1.map (fun q => q.1) ∧
    forecastLoop oracle H records (pns.erase pn0) =
      ((forecastLoop oracle H records pns).1, []) ∧
    forecastLoop oracle H (records.filter fun r => !decide (r.pn = pn0)) (pns.erase pn0) =
      ((forecastLoop oracle H records pns).1, []) := by
  have key : ∀ l : List String, l.Nodup → pn0 ∈ l →
      (∀ pn ∈ l, degenerate (groupedSeries records pn) = false) →
      (∀ pn ∈ l, pn ≠ pn0 → (oracle.fit (groupedSeries records pn)).isSome = true) →
      (forecastLoop oracle H records l).1.length = l.length - 1 ∧
      (forecastLoop oracle H records l).2 = [pn0] ∧
      forecastLoop oracle H records (l.erase pn0) =
        ((forecastLoop oracle H records l).1, []) := by
    intro l
    induction l with
    | nil => intro _ h; cases h
    | cons pn rest ih =>
      intro hnd hmem hvalid hok
      by_cases hpn : pn = pn0
      · subst hpn
        have hrest_nm : pn ∉ rest := (List.nodup_cons.mp hnd).1
        have hro : ∀ q ∈ rest, (oracle.fit (groupedSeries records q)).isSome = true := by
          intro q hq
          exact hok q (List.mem_cons_of_mem pn hq) (fun h => hrest_nm (h ▸ hq))
        have hrd : ∀ q ∈ rest, degenerate (groupedSeries records q) = false :=
          fun q hq => hvalid q (List.mem_cons_of_mem pn hq)
        obtain ⟨h2, h1⟩ := forecastLoop_all_ok oracle H records rest hrd hro
        have hdeg := hvalid pn (List.mem_cons_self pn rest)
        have hfe := forecastEntity_eq_none oracle H pn (groupedSeries records pn) hfail
        rw [forecastLoop_cons_fail oracle H records pn rest hdeg hfe]
        refine ⟨by simpa using h1, by simpa using h2, ?_⟩
        rw [List.erase_cons_head]
        exact Prod.ext rfl h2
      · have hmem' : pn0 ∈ rest := by
          rcases List.mem_cons.mp hmem with h | h
          · exact absurd h.symm hpn
          · exact h
        have hnd' := (List.nodup_cons.mp hnd).2
        obtain ⟨ih1, ih2, ih3⟩ := ih hnd' hmem'
          (fun q hq => hvalid q (List.mem_cons_of_mem pn hq))
          (fun q hq hq0 => hok q (List.mem_cons_of_mem pn hq) hq0)
        have hdeg := hvalid pn (List.mem_cons_self pn rest)
        obtain ⟨pts, hfe⟩ := forecastEntity_exists_of_isSome oracle H pn _
          (hok pn (List.mem_cons_self pn rest) hpn)
        have herase : (pn :: rest).erase pn0 = pn :: rest.erase pn0 := by
          simp [List.erase_cons, hpn]
        rw [forecastLoop_cons_ok oracle H records pn rest pts hdeg hfe, herase,
          forecastLoop_cons_ok oracle H records pn (rest.erase pn0) pts hdeg hfe]
        have hlen : 0 < rest.length := List.length_pos.mpr (List.ne_nil_of_mem hmem')
        refine ⟨?_, by simpa using ih2, ?_⟩
        · simp only [List.length_cons]
          simp [ih1]
          omega
        · rw [ih3]
  obtain ⟨k1, k2, k3⟩ := key pns hnd hmem hvalid hok
  refine ⟨k1, k2, ?_, k3, ?_⟩
  · intro hm
    obtain ⟨q, hq, hq1⟩ := List.mem_map.mp hm
    have hfit := (forecastLoop_fst_mem oracle H records pns q hq).2
    rw [hq1] at hfit
    simp [hfit] at hfail
  · have hne : ∀ q ∈ pns.erase pn0, q ≠ pn0 := by
      intro q hq
      exact ((List.Nodup.mem_erase_iff hnd).mp hq).1
    rw [forecastLoop_records_filter oracle H records pn0 (pns.erase pn0) hne]
    exact k3

/-- Witness for C1: parts A and B of recsW, the oracle failing exactly
on B's series; the run forecasts A alone and skips exactly B. -/
theorem forecast_isolation_witness :
    (([pnA, pnB] : List String).Nodup ∧ pnB ∈ [pnA, pnB] ∧
      (∀ pn ∈ ([pnA, pnB] : List String), degenerate (groupedSeries recsW pn) = false) ∧
      (oracleFailB.fit (groupedSeries recsW pnB)).isSome = false ∧
      (∀ pn ∈ ([pnA, pnB] : List String), pn ≠ pnB →
        (oracleFailB.fit (groupedSeries recsW pn)).isSome = true)) ∧
    ((forecastLoop oracleFailB 1 recsW [pnA, pnB]).1.length =
        ([pnA, pnB] : List String).length - 1 ∧
      (forecastLoop oracleFailB 1 recsW [pnA, pnB]).2 = [pnB] ∧
      pnB ∉ (forecastLoop oracleFailB 1 recsW [pnA, pnB]).1.map (fun q => q.1) ∧
      forecastLoop oracleFailB 1 recsW (([pnA, pnB] : List String).erase pnB) =
        ((forecastLoop oracleFailB 1 recsW [pnA, pnB]).1, []) ∧
      forecastLoop oracleFailB 1 (recsW.filter fun r => !decide (r.pn = pnB))
          (([pnA, pnB] : List String).erase pnB) =
        ((forecastLoop oracleFailB 1 recsW [pnA, pnB]).1, [])) := by
  have hgA : groupedSeries recsW pnA = [(1, 5), (2, 7), (3, 6)] := by
    simp [groupedSeries, recsW, pnA, pnB, sortNat, List.insertionSort,
      List.orderedInsert, List.filter_cons, List.filter_nil, List.sum_cons, List.sum_nil,
      List.dedup_cons_of_mem, List.dedup_cons_of_not_mem]
  have hgB : groupedSeries recsW pnB = seriesBW := by
    simp [groupedSeries, seriesBW, recsW, pnA, pnB, sortNat, List.insertionSort,
      List.orderedInsert, List.filter_cons, List.filter_nil, List.sum_cons, List.sum_nil,
      List.dedup_cons_of_mem, List.dedup_cons_of_not_mem]
  have hvalid : ∀ pn ∈ ([pnA, pnB] : List String),
      degenerate (groupedSeries recsW pn) = false := by
    intro pn hpn
    rcases List.mem_cons.mp hpn with h | h
    · subst h
      rw [hgA]
      norm_num [degenerate, MIN_DATA_POINTS, List.dedup_cons_of_mem,
        List.dedup_cons_of_not_mem]
    · rw [List.mem_singleton.mp h, hgB]
      norm_num [degenerate, seriesBW, MIN_DATA_POINTS, List.dedup_cons_of_mem,
        List.dedup_cons_of_not_mem]
  have hfail : (oracleFailB.fit (groupedSeries recsW pnB)).isSome = false := by
    rw [hgB]
    simp [oracleFailB]
  have hok : ∀ pn ∈ ([pnA, pnB] : List String), pn ≠ pnB →
      (oracleFailB.fit (groupedSeries recsW pn)).isSome = true := by
    intro pn hpn hne
    rcases List.mem_cons.mp hpn with h | h
    · subst h
      rw [hgA]
      norm_num [oracleFailB, seriesBW]
    · exact absurd (List.mem_singleton.mp h) hne
  exact ⟨⟨by decide, by decide, hvalid, hfail, hok⟩,
    forecast_isolation oracleFailB 1 recsW [pnA, pnB] pnB (by decide) (by decide)
      hvalid hfail hok⟩

theorem foldl_laterPoint_some (l : List ForecastPoint) :
    ∀ b : ForecastPoint, ∃ q, l.foldl laterPoint (some b) = some q := by
  induction l with
  | nil => intro b; exact ⟨b, rfl⟩
  | cons x rest ih =>
    intro b
    by_cases hb : b.month ≤ x.month
    · simpa [laterPoint, hb] using ih x
    · simpa [laterPoint, hb] using ih b

theorem foldl_laterPoint_mem (l : List ForecastPoint) :
    ∀ (acc : Option ForecastPoint) (p : ForecastPoint),
      l.foldl laterPoint acc = some p → acc = some p ∨ p ∈ l := by
  induction l with
  | nil => intro acc p h; exact Or.inl h
  | cons q rest ih =>
    intro acc p h
    rcases ih (laterPoint acc q) p h with h1 | h1
    · cases acc with
      | none =>
        simp only [laterPoint] at h1
        exact Or.inr ((Option.some.injEq q p).mp h1 ▸ List.mem_cons_self q rest)
      | some b =>
        by_cases hb : b.month ≤ q.month
        · simp only [laterPoint, if_pos hb] at h1
          exact Or.inr ((Option.some.injEq q p).mp h1 ▸ List.mem_cons_self q rest)
        · simp only [laterPoint, if_neg hb] at h1
          exact Or.inl h1
    · exact Or.inr (List.mem_cons_of_mem q h1)

theorem foldl_laterPoint_ge (l : List ForecastPoint) :
    ∀ (acc : Option ForecastPoint) (p : ForecastPoint), l.foldl laterPoint acc = some p →
      (∀ b, acc = some b → b.month ≤ p.month) ∧ ∀ q ∈ l, q.month ≤ p.month := by
  induction l with
  | nil =>
    intro acc p h
    refine ⟨?_, ?_⟩
    · intro b hb
      rw [hb] at h
      exact le_of_eq (congrArg ForecastPoint.month ((Option.some.injEq b p).mp h))
    · intro q hq; cases hq
  | cons q rest ih =>
    intro acc p h
    obtain ⟨ha, hl⟩ := ih (laterPoint acc q) p h
    have hq : q.month ≤ p.month := by
      cases acc with
      | none => exact ha q rfl
      | some b =>
        by_cases hb : b.month ≤ q.month
        · exact ha q (by simp [laterPoint, hb])
        · have hbp := ha b (by simp [laterPoint, hb])
          omega
    refine ⟨?_, ?_⟩
    · intro b hb
      cases acc with
      | none => cases hb
      | some b0 =>
        have hb0 : b0 = b := (Option.some.injEq b0 b).mp hb
        subst hb0
        by_cases hbq : b0.month ≤ q.month
        · exact le_trans hbq hq
        · exact ha b0 (by simp [laterPoint, hbq])
    · intro x hx
      rcases List.mem_cons.mp hx with h1 | h1
      · exact h1 ▸ hq
      · exact hl x h1

theorem latestPoint_isSome (forecasts : List ForecastPoint) (pn : String)
    (h : (forecasts.filter fun p => decide (p.pn = pn)) ≠ []) :
    ∃ q, latestPoint forecasts pn = some q := by
  unfold latestPoint
  cases hf : forecasts.filter fun p => decide (p.pn = pn) with
  | nil => exact absurd hf h
  | cons x rest =>
    simp only [List.foldl_cons, laterPoint]
    exact foldl_laterPoint_some rest x

/-- The chosen row belongs to the part's forecast rows and carries the
maximal month among them. -/
theorem latestPoint_spec (forecasts : List ForecastPoint) (pn : String) (p : ForecastPoint)
    (h : latestPoint forecasts pn = some p) :
    p ∈ forecasts ∧ p.pn = pn ∧ ∀ q ∈ forecasts, q.pn = pn → q.month ≤ p.month := by
  unfold latestPoint at h
  rcases foldl_laterPoint_mem _ _ _ h with h1 | h1
  · cases h1
  · have hp := List.mem_filter.mp h1
    refine ⟨hp.1, by simpa using hp.2, ?_⟩
    intro q hq hqpn
    exact (foldl_laterPoint_ge _ _ _ h).2 q (List.mem_filter.mpr ⟨hq, by simpa using hqpn⟩)

theorem filterMap_latestPoint_pns (forecasts : List ForecastPoint) :
    ∀ l : List String, (∀ pn ∈ l, pn ∈ forecasts.map fun p => p.pn) →
      (l.filterMap (latestPoint forecasts)).map (fun p => p.pn) = l := by
  intro l
  induction l with
  | nil => intro _; rfl
  | cons pn rest ih =>
    intro hl
    obtain ⟨x, hx, hxpn⟩ := List.mem_map.mp (hl pn (List.mem_cons_self pn rest))
    have hne : (forecasts.filter fun p => decide (p.pn = pn)) ≠ [] := by
      intro h0
      have hmem : x ∈ forecasts.filter fun p => decide (p.pn = pn) :=
        List.mem_filter.mpr ⟨hx, by simpa using hxpn⟩
      rw [h0] at hmem
      cases hmem
    obtain ⟨q, hq⟩ := latestPoint_isSome forecasts pn hne
    rw [List.filterMap_cons_some hq, List.map_cons,
      ih (fun z hz => hl z (List.mem_cons_of_mem pn hz)),
      (latestPoint_spec forecasts pn q hq).2.1]

/-- C7: the risk analyzer emits exactly one row per forecast part: its
row part list is the sorted dedup of the forecast parts, without
duplicates; a part appears among the rows exactly when it was forecast,
so a snapshot-only part produces no row; and each row's forecast
quantity is taken from one of that part's ForecastPoints whose month is
maximal (the latest period). -/
theorem risk_domain (forecasts : List ForecastPoint) (inv : String → Option InvRec)
    (bo : String → Option ℚ) :
    (riskRows forecasts inv bo).map (fun r => r.pn) =
      sortStr ((forecasts.map fun p => p.pn).dedup) ∧
    ((riskRows forecasts inv bo).map (fun r => r.pn)).Nodup ∧
    (∀ pn : String, pn ∈ (riskRows forecasts inv bo).map (fun r => r.pn) ↔
      pn ∈ forecasts.map fun p => p.pn) ∧
    (∀ r ∈ riskRows forecasts inv bo, ∃ p ∈ forecasts, p.pn = r.pn ∧
      p.qty = r.forecastQty ∧ ∀ q ∈ forecasts, q.pn = r.pn → q.month ≤ p.month) := by
  have hsortmem : ∀ pn ∈ sortStr ((forecasts.map fun p => p.pn).dedup),
      pn ∈ forecasts.map fun p => p.pn := by
    intro pn hpn
    have := (List.perm_insertionSort (fun a b => leStr a b = true) _).mem_iff.mp hpn
    exact List.mem_dedup.mp this
  have hmain : (riskRows forecasts inv bo).map (fun r => r.pn) =
      sortStr ((forecasts.map fun p => p.pn).dedup) := by
    unfold riskRows latestForecast
    rw [List.map_map]
    exact filterMap_latestPoint_pns forecasts _ hsortmem
  refine ⟨hmain, ?_, ?_, ?_⟩
  · rw [hmain]
    unfold sortStr
    exact (List.perm_insertionSort (fun a b => leStr a b = true) _).nodup_iff.mpr
      (List.nodup_dedup _)
  · intro pn
    rw [hmain]
    constructor
    · exact hsortmem pn
    · intro hpn
      apply (List.perm_insertionSort (fun a b => leStr a b = true) _).mem_iff.mpr
      exact List.mem_dedup.mpr hpn
  · intro r hr
    unfold riskRows latestForecast at hr
    obtain ⟨p, hp, hpr⟩ := List.mem_map.mp hr
    obtain ⟨pn, _, hpn⟩ := List.mem_filterMap.mp hp
    obtain ⟨hmem, hppn, hmax⟩ := latestPoint_spec forecasts pn p hpn
    refine ⟨p, hmem, ?_, ?_, ?_⟩
    · rw [← hpr]
    · rw [← hpr]
    · intro q hq hqpn
      apply hmax q hq
      rw [hqpn, ← hpr, hppn]

/-- Witness for C7: part A with forecasts in months 1 and 5 yields one
row whose quantity 30 comes from the month-5 ForecastPoint. -/
theorem risk_domain_witness :
    (⟨pnA, 30, 100, 20, 10, 80, true⟩ : RiskRow) ∈ riskRows fcW invA boA ∧
    (∃ p ∈ fcW, p.pn = (⟨pnA, 30, 100, 20, 10, 80, true⟩ : RiskRow).pn ∧
      p.qty = (⟨pnA, 30, 100, 20, 10, 80, true⟩ : RiskRow).forecastQty ∧
      ∀ q ∈ fcW, q.pn = (⟨pnA, 30, 100, 20, 10, 80, true⟩ : RiskRow).pn →
        q.month ≤ p.month) := by
  have hmem : (⟨pnA, 30, 100, 20, 10, 80, true⟩ : RiskRow) ∈ riskRows fcW invA boA := by
    norm_num [riskRows, latestForecast, latestPoint, laterPoint, sortStr, leStr, leChars,
      invA, boA, fcW, pnA, List.filter_cons]
  exact ⟨hmem, (risk_domain fcW invA boA).2.2.2 _ hmem⟩

theorem sortNat_sorted (l : List Nat) : List.Sorted (fun a b => a ≤ b) (sortNat l) :=
  List.sorted_insertionSort (fun a b => a ≤ b) l

/-- The sorted distinct month list only depends on the collection up to
permutation. -/
theorem sortNat_dedup_perm_eq (l l' : List Nat) (h : List.Perm l l') :
    sortNat l.dedup = sortNat l'.dedup := by
  apply List.eq_of_perm_of_sorted ?_ (sortNat_sorted _) (sortNat_sorted _)
  exact ((List.perm_insertionSort (fun a b => a ≤ b) _).trans h.dedup).trans
    (List.perm_insertionSort (fun a b => a ≤ b) _).symm

/-- The aggregate read at a month is the plain total of the collection
at that month. -/
theorem aggAt_aggMonthly (l : List ForecastPoint) (m : Nat) :
    aggAt (aggMonthly l) m =
      ((l.filter fun p => decide (p.month = m)).map fun p => p.qty).sum := by
  unfold aggAt aggMonthly
  have hnd : (sortNat ((l.map fun p => p.month).dedup)).Nodup := by
    unfold sortNat
    exact (List.perm_insertionSort (fun a b => a ≤ b) _).nodup_iff.mpr (List.nodup_dedup _)
  have hfm : ∀ sms : List Nat, sms.Nodup →
      (((sms.map fun mo =>
          (mo, ((l.filter fun p => decide (p.month = mo)).map fun p => p.qty).sum)).filter
            fun p => decide (p.1 = m)).map fun p => p.2).sum =
        if m ∈ sms then ((l.filter fun p => decide (p.month = m)).map fun p => p.qty).sum
        else 0 := by
    intro sms
    induction sms with
    | nil => intro _; simp
    | cons a rest ih =>
      intro hnd
      rw [List.map_cons, List.filter_cons]
      by_cases ha : a = m
      · subst ha
        have hnm : a ∉ rest := (List.nodup_cons.mp hnd).1
        have hrest := ih (List.nodup_cons.mp hnd).2
        simp [hrest, hnm]
      · have hrest := ih (List.nodup_cons.mp hnd).2
        simp [hrest, ha, Ne.symm ha]
  rw [hfm _ hnd]
  by_cases hm : m ∈ sortNat ((l.map fun p => p.month).dedup)
  · rw [if_pos hm]
  · rw [if_neg hm]
    have hempty : (l.filter fun p => decide (p.month = m)) = [] := by
      rw [List.filter_eq_nil_iff]
      intro p hp
      simp only [decide_eq_true_eq]
      intro hpm
      apply hm
      unfold sortNat
      apply (List.perm_insertionSort (fun a b => a ≤ b) _).mem_iff.mpr
      exact List.mem_dedup.mpr (hpm ▸ List.mem_map_of_mem (fun p => p.month) hp)
    rw [hempty]
    rfl

/-- C9: aggregation is order-insensitive and additive: a permutation of
the forecast collection yields the same aggregate table, and for two
collections over disjoint part sets the aggregate of their union at any
month equals the sum of the two aggregates at that month, an absent
month contributing nothing. -/
theorem agg_perm_additive :
    (∀ l l' : List ForecastPoint, List.Perm l l' → aggMonthly l = aggMonthly l') ∧
    (∀ l1 l2 : List ForecastPoint,
      (∀ pn, pn ∈ l1.map (fun p => p.pn) → pn ∉ l2.map (fun p => p.pn)) →
      ∀ m : Nat, aggAt (aggMonthly (l1 ++ l2)) m =
        aggAt (aggMonthly l1) m + aggAt (aggMonthly l2) m) := by
  constructor
  · intro l l' h
    unfold aggMonthly
    rw [sortNat_dedup_perm_eq _ _ (h.map fun p => p.month)]
    apply List.map_congr_left
    intro mo _
    have : List.Perm (l.filter fun p => decide (p.month = mo))
        (l'.filter fun p => decide (p.month = mo)) := h.filter _
    rw [List.Perm.sum_eq (this.map fun p => p.qty)]
  · intro l1 l2 _ m
    rw [aggAt_aggMonthly, aggAt_aggMonthly, aggAt_aggMonthly, List.filter_append,
      List.map_append, List.sum_append]

/-- Witness for C9: a two-part collection against its reversal, and
against a disjoint third part. -/
theorem agg_perm_additive_witness :
    (List.Perm fpPQ fpQP ∧ aggMonthly fpPQ = aggMonthly fpQP) ∧
    ((∀ pn, pn ∈ fpPQ.map (fun p => p.pn) → pn ∉ fpR.map (fun p => p.pn)) ∧
      aggAt (aggMonthly (fpPQ ++ fpR)) 1 =
        aggAt (aggMonthly fpPQ) 1 + aggAt (aggMonthly fpR) 1) := by
  have hperm : List.Perm fpPQ fpQP := by decide
  have hdis : ∀ pn, pn ∈ fpPQ.map (fun p => p.pn) → pn ∉ fpR.map (fun p => p.pn) := by
    decide
  exact ⟨⟨hperm, agg_perm_additive.1 fpPQ fpQP hperm⟩,
    ⟨hdis, agg_perm_additive.2 fpPQ fpR hdis 1⟩⟩

theorem parseRecords_ok_forall : ∀ (l : List (String × String × ℚ)) (rs : List SalesRecord),
    parseRecords l = Except.ok rs → ∀ x ∈ l, ∃ m, parseMonth x.2.1 = some m := by
  intro l
  induction l with
  | nil => intro rs _ x hx; cases hx
  | cons y ys ih =>
    intro rs h x hx
    unfold parseRecords at h
    cases hp : parseMonth y.2.1 with
    | none => rw [hp] at h; simp at h
    | some m =>
      rw [hp] at h
      cases hrec : parseRecords ys with
      | error e => rw [hrec] at h; simp at h
      | ok rs0 =>
        rcases List.mem_cons.mp hx with h1 | h1
        · exact ⟨m, h1 ▸ hp⟩
        · exact ih rs0 hrec x h1

/-- C8: reshaper error policy.  A column whose label does not match the
period pattern is ignored; a row with a missing part cell, or with no
quantity under any period column, is dropped silently without affecting
the result; but a period column whose label does not parse as a
calendar month, holding at least one surviving value, makes reshaping
return an input error — and then the whole pipeline returns that error
before any per-part forecasting work, whatever the oracle. -/
theorem reshaper_error_policy (t : WideTable) (c : String) (r : RawRow) :
    (isDateCol c = false → reshape ⟨t.cols ++ [c], t.rows⟩ = reshape t) ∧
    (r.pn = none → reshape ⟨t.cols, t.rows ++ [r]⟩ = reshape t) ∧
    ((∀ c0 ∈ t.cols, isDateCol c0 = true → cellValue r c0 = none) →
      reshape ⟨t.cols, t.rows ++ [r]⟩ = reshape t) ∧
    (c ∈ t.cols → isDateCol c = true → parseMonth c = none →
      (∃ row ∈ t.rows, row.pn.isSome = true ∧ (cellValue row c).isSome = true) →
      (∃ msg, reshape t = Except.error msg) ∧
      ∀ (oracle : Oracle) (H : Nat), ∃ msg, runPipeline oracle H t = Except.error msg) := by
  refine ⟨?_, ?_, ?_, ?_⟩
  · intro h
    unfold reshape
    simp [List.filter_append, h]
  · intro h
    unfold reshape
    have hm : meltCol (t.rows ++ [r]) = meltCol t.rows := by
      funext c0
      unfold meltCol
      rw [List.filterMap_append]
      simp [h]
    simp only [hm]
  · intro h
    unfold reshape
    have hm : (t.cols.filter isDateCol).map (meltCol (t.rows ++ [r])) =
        (t.cols.filter isDateCol).map (meltCol t.rows) := by
      apply List.map_congr_left
      intro c0 hc0
      have hmem := List.mem_filter.mp hc0
      have hval := h c0 hmem.1 (by simpa using hmem.2)
      unfold meltCol
      rw [List.filterMap_append]
      cases hrpn : r.pn with
      | none => simp [hrpn]
      | some p => simp [hrpn, hval]
    simp only [hm]
  · intro hc hdc hpm hrow
    obtain ⟨row, hrmem, hrpn, hrval⟩ := hrow
    obtain ⟨p, hp⟩ := Option.isSome_iff_exists.mp hrpn
    obtain ⟨q, hq⟩ := Option.isSome_iff_exists.mp hrval
    have hmelt : (p, c, q) ∈ meltCol t.rows c := by
      unfold meltCol
      apply List.mem_filterMap.mpr
      exact ⟨row, hrmem, by rw [hp, hq]⟩
    have hflat : (p, c, q) ∈ ((t.cols.filter isDateCol).map (meltCol t.rows)).flatten := by
      apply List.mem_flatten.mpr
      refine ⟨meltCol t.rows c, ?_, hmelt⟩
      apply List.mem_map.mpr
      exact ⟨c, List.mem_filter.mpr ⟨hc, by simpa using hdc⟩, rfl⟩
    have herr : ∃ msg, reshape t = Except.error msg := by
      cases hr : reshape t with
      | ok rs =>
        obtain ⟨m, hm⟩ := parseRecords_ok_forall _ rs hr (p, c, q) hflat
        rw [hpm] at hm
        cases hm
      | error msg => exact ⟨msg, rfl⟩
    obtain ⟨msg, hmsg⟩ := herr
    refine ⟨⟨msg, hmsg⟩, ?_⟩
    intro oracle H
    refine ⟨msg, ?_⟩
    unfold runPipeline
    rw [hmsg]
    rfl

/-- Witness for C8: appending a non-period column to tBad changes
nothing, and tBad's malformed label 2024-13 aborts reshaping and the
pipeline for every oracle. -/
theorem reshaper_error_policy_witness :
    (isDateCol pnA = false ∧ reshape ⟨tBad.cols ++ [pnA], tBad.rows⟩ = reshape tBad) ∧
    ((colBad ∈ tBad.cols ∧ isDateCol colBad = true ∧ parseMonth colBad = none ∧
      (∃ row ∈ tBad.rows, row.pn.isSome = true ∧ (cellValue row colBad).isSome = true)) ∧
      ((∃ msg, reshape tBad = Except.error msg) ∧
        ∀ (oracle : Oracle) (H : Nat),
          ∃ msg, runPipeline oracle H tBad = Except.error msg)) :=
  ⟨⟨by decide, (reshaper_error_policy tBad pnA ⟨none, []⟩).1 (by decide)⟩,
    ⟨⟨by decide, by decide, by decide, by decide⟩,
      (reshaper_error_policy tBad colBad ⟨none, []⟩).2.2.2 (by decide) (by decide)
        (by decide) (by decide)⟩⟩

theorem daysInMonth_pos (mi : Nat) : 1 ≤ daysInMonth mi := by
  unfold daysInMonth
  split
  · split <;> omega
  · split <;> omega

theorem daysInMonth_le (mi : Nat) : daysInMonth mi ≤ 31 := by
  unfold daysInMonth
  split
  · split <;> omega
  · split <;> omega

theorem Date.next_valid (d : Date) (h : d.Valid) : d.next.Valid := by
  obtain ⟨h1, h2⟩ := h
  unfold Date.next
  by_cases hd : d.day < daysInMonth d.mi
  · rw [if_pos hd]
    exact ⟨by show 1 ≤ d.day + 1; omega, by show d.day + 1 ≤ daysInMonth d.mi; omega⟩
  · rw [if_neg hd]
    exact ⟨le_refl 1, daysInMonth_pos _⟩

theorem Date.addDays_valid : ∀ (n : Nat) (d : Date), d.Valid → (d.addDays n).Valid := by
  intro n
  induction n with
  | zero => intro d h; exact h
  | succ n ih => intro d h; exact ih d.next (Date.next_valid d h)

theorem Date.mi_le_next (d : Date) : d.mi ≤ d.next.mi := by
  unfold Date.next
  split
  · exact le_refl _
  · exact Nat.le_succ _

theorem Date.mi_le_addDays : ∀ (n : Nat) (d : Date), d.mi ≤ (d.addDays n).mi := by
  intro n
  induction n with
  | zero => intro d; exact le_refl _
  | succ n ih => intro d; exact le_trans (Date.mi_le_next d) (ih d.next)

theorem Date.addDays_add : ∀ (a : Nat) (d : Date) (b : Nat),
    d.addDays (a + b) = (d.addDays a).addDays b := by
  intro a
  induction a with
  | zero => intro d b; rw [Nat.zero_add]; rfl
  | succ a ih =>
    intro d b
    rw [show a + 1 + b = (a + b) + 1 from by omega]
    show d.next.addDays (a + b) = (d.next.addDays a).addDays b
    exact ih d.next b

/-- From a real date, adding the number of days left in its month plus
one lands on the first of the following month. -/
theorem Date.addDays_cross : ∀ (k : Nat) (d : Date), d.Valid →
    daysInMonth d.mi - d.day = k → d.addDays (k + 1) = ⟨d.mi + 1, 1⟩ := by
  intro k
  induction k with
  | zero =>
    intro d hv hk
    show d.next.addDays 0 = ⟨d.mi + 1, 1⟩
    unfold Date.next
    have hge : ¬d.day < daysInMonth d.mi := by
      have := hv.2
      omega
    rw [if_neg hge]
    rfl
  | succ k ih =>
    intro d hv hk
    show d.next.addDays (k + 1) = ⟨d.mi + 1, 1⟩
    have hlt : d.day < daysInMonth d.mi := by omega
    have hnext : d.next = ⟨d.mi, d.day + 1⟩ := by
      unfold Date.next
      rw [if_pos hlt]
    rw [hnext]
    exact ih ⟨d.mi, d.day + 1⟩
      ⟨by show 1 ≤ d.day + 1; omega, by show d.day + 1 ≤ daysInMonth d.mi; omega⟩
      (by show daysInMonth d.mi - (d.day + 1) = k; omega)

/-- Every 31 days cross at least one month boundary. -/
theorem Date.addDays_climb : ∀ (k : Nat) (d : Date), d.Valid →
    d.mi + k ≤ (d.addDays (31 * k)).mi := by
  intro k
  induction k with
  | zero => intro d _; simp [Date.addDays]
  | succ k ih =>
    intro d hv
    have h1 := daysInMonth_le d.mi
    have h2 := hv.1
    have h3 := hv.2
    have hsplit : 31 * (k + 1) =
        ((daysInMonth d.mi - d.day) + 1) + ((30 - (daysInMonth d.mi - d.day)) + 31 * k) := by
      omega
    rw [hsplit, Date.addDays_add, Date.addDays_cross (daysInMonth d.mi - d.day) d hv rfl,
      Date.addDays_add]
    have hval : (Date.mk (d.mi + 1) 1).Valid := ⟨le_refl 1, daysInMonth_pos _⟩
    have hval2 := Date.addDays_valid (30 - (daysInMonth d.mi - d.day)) _ hval
    have hmi : (Date.mk (d.mi + 1) 1).mi ≤
        ((Date.mk (d.mi + 1) 1).addDays (30 - (daysInMonth d.mi - d.day))).mi :=
      Date.mi_le_addDays _ _
    have hmi1 : (Date.mk (d.mi + 1) 1).mi = d.mi + 1 := rfl
    have hrec := ih ((Date.mk (d.mi + 1) 1).addDays (30 - (daysInMonth d.mi - d.day))) hval2
    omega

theorem le_foldl_max : ∀ (l : List Nat) (a x : Nat), x ∈ a :: l → x ≤ l.foldl Nat.max a := by
  intro l
  induction l with
  | nil =>
    intro a x hx
    rw [List.mem_singleton] at hx
    exact le_of_eq hx
  | cons b rest ih =>
    intro a x hx
    show x ≤ rest.foldl Nat.max (Nat.max a b)
    rcases List.mem_cons.mp hx with h | h
    · rw [h]
      exact le_trans (Nat.le_max_left a b) (ih (Nat.max a b) _ (List.mem_cons_self _ _))
    · rcases List.mem_cons.mp h with h1 | h1
      · rw [h1]
        exact le_trans (Nat.le_max_right a b) (ih (Nat.max a b) _ (List.mem_cons_self _ _))
      · exact ih (Nat.max a b) x (List.mem_cons_of_mem _ h1)

theorem foldl_max_le : ∀ (l : List Nat) (a b : Nat), a ≤ b → (∀ x ∈ l, x ≤ b) →
    l.foldl Nat.max a ≤ b := by
  intro l
  induction l with
  | nil => intro a b h _; exact h
  | cons c rest ih =>
    intro a b h hl
    show rest.foldl Nat.max (Nat.max a c) ≤ b
    apply ih
    · exact Nat.max_le.mpr ⟨h, hl c (List.mem_cons_self _ _)⟩
    · intro x hx
      exact hl x (List.mem_cons_of_mem _ hx)

theorem foldl_min_le : ∀ (l : List Nat) (a x : Nat), x ∈ a :: l → l.foldl Nat.min a ≤ x := by
  intro l
  induction l with
  | nil =>
    intro a x hx
    rw [List.mem_singleton] at hx
    exact le_of_eq hx.symm
  | cons b rest ih =>
    intro a x hx
    show rest.foldl Nat.min (Nat.min a b) ≤ x
    rcases List.mem_cons.mp hx with h | h
    · rw [h]
      exact le_trans (ih (Nat.min a b) _ (List.mem_cons_self _ _)) (Nat.min_le_left a b)
    · rcases List.mem_cons.mp h with h1 | h1
      · rw [h1]
        exact le_trans (ih (Nat.min a b) _ (List.mem_cons_self _ _)) (Nat.min_le_right a b)
      · exact ih (Nat.min a b) x (List.mem_cons_of_mem _ h1)

theorem chain_lt_range1 (s n : Nat) :
    List.Chain' (fun a b => a < b) (List.range' s n) := by
  cases n with
  | zero => exact List.chain'_nil
  | succ k =>
    rw [List.range'_succ]
    exact List.chain_lt_range' s k (by omega)

theorem range'_drop (s n k : Nat) : (List.range' s n).drop k = List.range' (s + k) (n - k) := by
  induction k generalizing s n with
  | zero => simp
  | succ k ih =>
    cases n with
    | zero => simp
    | succ n =>
      rw [List.range'_succ, List.drop_succ_cons, ih (s + 1) n]
      have h1 : s + 1 + k = s + (k + 1) := by omega
      have h2 : n - k = n + 1 - (k + 1) := by omega
      rw [h1, h2]

theorem foldl_max_eq_of (X : List Nat) (m T : Nat) (hmT : m ≤ T)
    (hXT : ∀ x ∈ X, x ≤ T) (hTmem : T ∈ m :: X) : X.foldl Nat.max m = T :=
  le_antisymm (foldl_max_le X m T hmT hXT) (le_foldl_max X m T hTmem)

theorem resampleMS_months (yhat : Date → ℚ) (dates : List Date) (m : Nat) (X : List Nat)
    (h : dates.map Date.mi = m :: X) :
    (resampleMS yhat dates).map (fun p => p.1) =
      List.range' (X.foldl Nat.min m) (X.foldl Nat.max m + 1 - X.foldl Nat.min m) := by
  unfold resampleMS
  rw [h, List.map_map]
  show (monthSpan (m :: X)).map (fun x => x) = _
  rw [List.map_id']
  rfl

/-- C4 (corrected): for every valid series (strictly increasing months,
at least 3 points) on which the oracle fits, the orchestrator's output
has exactly H rows, with strictly increasing months, ending at the
month reached 30 * H days after the last history month start; the
earliest output month, however, may fall inside the fitting history
rather than strictly after it (see the counterexample). -/
theorem orchestrator_horizon (oracle : Oracle) (H : Nat) (pn : String)
    (series : List (Nat × ℚ)) (m : Nat) (ms : List Nat)
    (hM : series.map (fun p => p.1) = m :: ms)
    (hchain : List.Chain' (fun a b => a < b) (series.map fun p => p.1))
    (hlen : 3 ≤ series.length) (hH1 : 1 ≤ H) (hH12 : H ≤ 12)
    (hfit : (oracle.fit series).isSome = true) :
    ∃ pts : List ForecastPoint, forecastEntity oracle H pn series = some pts ∧
      pts.length = H ∧
      List.Chain' (fun a b => a < b) (pts.map fun p => p.month) ∧
      (pts.map fun p => p.month).getLast? =
        some ((Date.mk (ms.foldl Nat.max m) 1).addDays (30 * H)).mi := by
  obtain ⟨yhat, hy⟩ := Option.isSome_iff_exists.mp hfit
  have hbasev : (Date.mk (ms.foldl Nat.max m) 1).Valid := ⟨le_refl 1, daysInMonth_pos _⟩
  have hdates : (futureDates (series.map fun p => p.1) H).map Date.mi =
      m :: (ms ++ (List.range (30 * H)).map
        fun i => ((Date.mk (ms.foldl Nat.max m) 1).addDays (i + 1)).mi) := by
    rw [hM]
    show (((m :: ms).map fun mi => Date.mk mi 1) ++
      (List.range (30 * H)).map fun i =>
        (Date.mk (ms.foldl Nat.max m) 1).addDays (i + 1)).map Date.mi = _
    rw [List.map_append, List.map_map, List.map_map]
    show ((m :: ms).map fun x => x) ++ _ = _
    rw [List.map_id']
    rfl
  -- the last future date realises the top of the month range
  have hmL : m ≤ ms.foldl Nat.max m := le_foldl_max ms m m (List.mem_cons_self m ms)
  have hLT : ms.foldl Nat.max m ≤ ((Date.mk (ms.foldl Nat.max m) 1).addDays (30 * H)).mi :=
    Date.mi_le_addDays (30 * H) (Date.mk (ms.foldl Nat.max m) 1)
  have hXT : ∀ x ∈ ms ++ (List.range (30 * H)).map
        (fun i => ((Date.mk (ms.foldl Nat.max m) 1).addDays (i + 1)).mi),
      x ≤ ((Date.mk (ms.foldl Nat.max m) 1).addDays (30 * H)).mi := by
    intro x hx
    rcases List.mem_append.mp hx with h | h
    · exact le_trans (le_foldl_max ms m x (List.mem_cons_of_mem m h)) hLT
    · obtain ⟨i, hi, hix⟩ := List.mem_map.mp h
      have hi30 : i < 30 * H := List.mem_range.mp hi
      have hstep := Date.mi_le_addDays (30 * H - (i + 1))
        ((Date.mk (ms.foldl Nat.max m) 1).addDays (i + 1))
      rw [← Date.addDays_add, show i + 1 + (30 * H - (i + 1)) = 30 * H from by omega] at hstep
      rw [← hix]
      exact hstep
  have hTmem : ((Date.mk (ms.foldl Nat.max m) 1).addDays (30 * H)).mi ∈
      m :: (ms ++ (List.range (30 * H)).map
        fun i => ((Date.mk (ms.foldl Nat.max m) 1).addDays (i + 1)).mi) := by
    apply List.mem_cons_of_mem
    apply List.mem_append_right
    apply List.mem_map.mpr
    refine ⟨30 * H - 1, List.mem_range.mpr (by omega), ?_⟩
    rw [show 30 * H - 1 + 1 = 30 * H from by omega]
  have hhi : (ms ++ (List.range (30 * H)).map
        (fun i => ((Date.mk (ms.foldl Nat.max m) 1).addDays (i + 1)).mi)).foldl Nat.max m =
      ((Date.mk (ms.foldl Nat.max m) 1).addDays (30 * H)).mi :=
    foldl_max_eq_of _ m _ (le_trans hmL hLT) hXT hTmem
  have hlo : (ms ++ (List.range (30 * H)).map
        (fun i => ((Date.mk (ms.foldl Nat.max m) 1).addDays (i + 1)).mi)).foldl Nat.min m ≤
      m := foldl_min_le _ m m (List.mem_cons_self _ _)
  -- three strictly increasing history months force the last to sit two
  -- above the first
  have hmsL : 2 ≤ ms.length := by
    have := congrArg List.length hM
    simp only [List.length_map, List.length_cons] at this
    omega
  have hL2 : m + 2 ≤ ms.foldl Nat.max m := by
    cases ms with
    | nil => simp at hmsL
    | cons a tl =>
      cases tl with
      | nil => simp at hmsL
      | cons b tl2 =>
        rw [hM] at hchain
        have hma : m < a := (List.chain'_cons.mp hchain).1
        have hab : a < b := (List.chain'_cons.mp (List.chain'_cons.mp hchain).2).1
        have hbL : b ≤ (a :: b :: tl2).foldl Nat.max m :=
          le_foldl_max _ m b (List.mem_cons_of_mem m
            (List.mem_cons_of_mem a (List.mem_cons_self b tl2)))
        omega
  -- climbing: 30 * H days cross at least 30 * H / 31 month boundaries
  have hclimb : ms.foldl Nat.max m + (30 * H) / 31 ≤
      ((Date.mk (ms.foldl Nat.max m) 1).addDays (30 * H)).mi := by
    have hcl := Date.addDays_climb ((30 * H) / 31) (Date.mk (ms.foldl Nat.max m) 1) hbasev
    have hmono := Date.mi_le_addDays (30 * H - 31 * ((30 * H) / 31))
      ((Date.mk (ms.foldl Nat.max m) 1).addDays (31 * ((30 * H) / 31)))
    rw [← Date.addDays_add] at hmono
    rw [show 31 * ((30 * H) / 31) + (30 * H - 31 * ((30 * H) / 31)) = 30 * H from by
      have := Nat.div_mul_le_self (30 * H) 31
      omega] at hmono
    have hmk : (Date.mk (ms.foldl Nat.max m) 1).mi = ms.foldl Nat.max m := rfl
    omega
  have hq3 : H ≤ (30 * H) / 31 + 3 := by
    have h31 : (0 : Nat) < 31 := by omega
    rcases le_or_lt H 3 with h | h
    · omega
    · have : H - 3 ≤ (30 * H) / 31 := by
        rw [Nat.le_div_iff_mul_le h31]
        omega
      omega
  have hlenH : H ≤ (ms ++ (List.range (30 * H)).map
        (fun i => ((Date.mk (ms.foldl Nat.max m) 1).addDays (i + 1)).mi)).foldl Nat.max m +
      1 - (ms ++ (List.range (30 * H)).map
        (fun i => ((Date.mk (ms.foldl Nat.max m) 1).addDays (i + 1)).mi)).foldl Nat.min m := by
    rw [hhi]
    omega
  -- the resampled month index
  have hresm := resampleMS_months yhat (futureDates (series.map fun p => p.1) H) m _ hdates
  have hreslen : (resampleMS yhat (futureDates (series.map fun p => p.1) H)).length =
      (ms ++ (List.range (30 * H)).map
        (fun i => ((Date.mk (ms.foldl Nat.max m) 1).addDays (i + 1)).mi)).foldl Nat.max m +
      1 - (ms ++ (List.range (30 * H)).map
        (fun i => ((Date.mk (ms.foldl Nat.max m) 1).addDays (i + 1)).mi)).foldl Nat.min m := by
    have := congrArg List.length hresm
    simpa using this
  have hfe : forecastEntity oracle H pn series = some
      (((resampleMS yhat (futureDates (series.map fun p => p.1) H)).drop
        ((resampleMS yhat (futureDates (series.map fun p => p.1) H)).length - H)).map
        fun p => ⟨pn, p.1, p.2⟩) := by
    unfold forecastEntity
    rw [hy]
    rfl
  have hptsm : ((((resampleMS yhat (futureDates (series.map fun p => p.1) H)).drop
        ((resampleMS yhat (futureDates (series.map fun p => p.1) H)).length - H)).map
        fun p => (⟨pn, p.1, p.2⟩ : ForecastPoint)).map fun p => p.month) =
      List.range' ((ms ++ (List.range (30 * H)).map
          (fun i => ((Date.mk (ms.foldl Nat.max m) 1).addDays (i + 1)).mi)).foldl Nat.min m +
        ((resampleMS yhat (futureDates (series.map fun p => p.1) H)).length - H)) H := by
    rw [List.map_map]
    show ((resampleMS yhat (futureDates (series.map fun p => p.1) H)).drop
        ((resampleMS yhat (futureDates (series.map fun p => p.1) H)).length - H)).map
        (fun p => p.1) = _
    rw [List.map_drop, hresm, range'_drop, hreslen]
    congr 1
    omega
  refine ⟨_, hfe, ?_, ?_, ?_⟩
  · rw [← List.length_map _ (fun p => p.month), hptsm, List.length_range']
  · rw [hptsm]
    exact chain_lt_range1 _ _
  · rw [hptsm, List.getLast?_range']
    rw [if_neg (by omega : ¬H = 0)]
    rw [hreslen, hhi]
    congr 1
    omega

/-- Counterexample to C4 as stated: for the valid series with months 1,
2, 3 and horizon 2, the output months are 3 and 4 — the first output
month 3 is one of the fitting-history months, so the output periods do
not immediately follow the input series' resampled timeline. -/
theorem orchestrator_horizon_cex :
    (forecastEntity oracleZero 2 pnA series0).map (fun l => l.map fun p => p.month) =
      some [3, 4] ∧
    3 ∈ series0.map fun p => p.1 := by
  exact ⟨by decide, by decide⟩

/-- Witness for C4: the corrected horizon theorem applied to the series
with months 1, 2, 3 at horizon 2. -/
theorem orchestrator_horizon_witness :
    (series0.map (fun p => p.1) = 1 :: [2, 3] ∧
      List.Chain' (fun a b => a < b) (series0.map fun p => p.1) ∧
      3 ≤ series0.length ∧ (1 : Nat) ≤ 2 ∧ (2 : Nat) ≤ 12 ∧
      (oracleZero.fit series0).isSome = true) ∧
    (∃ pts : List ForecastPoint, forecastEntity oracleZero 2 pnA series0 = some pts ∧
      pts.length = 2 ∧
      List.Chain' (fun a b => a < b) (pts.map fun p => p.month) ∧
      (pts.map fun p => p.month).getLast? =
        some ((Date.mk (([2, 3] : List Nat).foldl Nat.max 1) 1).addDays (30 * 2)).mi) := by
  have h1 : series0.map (fun p => p.1) = 1 :: [2, 3] := by decide
  have h2 : List.Chain' (fun a b => a < b) (series0.map fun p => p.1) := by
    rw [h1]
    simp [List.chain'_cons]
  exact ⟨⟨h1, h2, by decide, by decide, by decide, by decide⟩,
    orchestrator_horizon oracleZero 2 pnA series0 1 [2, 3] h1 h2 (by decide)
      (by decide) (by decide) (by decide)⟩
